import Mathlib

/-
Verification of the family-log habit tracker's Log Store (src/App.tsx,
src/types.ts, src/constants.ts).

JavaScript objects with string keys are modelled as association lists in
insertion order; `obj?.[k]` is `lookup`, the spread update
`{...obj, [k]: v}` is `setKey`.  Machine integers do not occur: the
arithmetic in the source is small-integer arithmetic on `number`s, modelled
on `Nat`/`Int`, except for the progress percentage, whose
`Math.round((completed/total)*100)` really exercises binary64 rounding and
is modelled bit-exactly (see the IEEE-754 section below).  Fallible JSON
parsing is modelled with `Option`.
-/

namespace FamilyLog

/-- First value stored under a string key, i.e. JS property read `obj[k]`
(objects have unique keys, so "first" is "the" entry). -/
def lookup {α : Type} : List (String × α) → String → Option α
  | [], _ => none
  | (k, v) :: rest, key => if k = key then some v else lookup rest key

/-- JS spread update `{...obj, [k]: v}`: replaces the value at an existing
key in place, otherwise appends the new key at the end. -/
def setKey {α : Type} : List (String × α) → String → α → List (String × α)
  | [], key, val => [(key, val)]
  | (k, v) :: rest, key, val =>
    if k = key then (key, val) :: rest else (k, v) :: setKey rest key val

theorem lookup_setKey_self {α : Type} (l : List (String × α)) (k : String) (v : α) :
    lookup (setKey l k v) k = some v := by
  induction l with
  | nil => simp [lookup, setKey]
  | cons kv rest ih =>
    by_cases h : kv.1 = k
    · simp [lookup, setKey, h]
    · simp [lookup, setKey, h, ih]

theorem lookup_setKey_ne {α : Type} (l : List (String × α)) (k k' : String) (v : α)
    (h : k' ≠ k) : lookup (setKey l k v) k' = lookup l k' := by
  induction l with
  | nil => simp [lookup, setKey, Ne.symm h]
  | cons kv rest ih =>
    by_cases hk : kv.1 = k
    · subst hk
      simp [lookup, setKey, Ne.symm h]
    · by_cases hk' : kv.1 = k'
      · simp [lookup, setKey, hk, hk', h, Ne.symm h]
      · simp [lookup, setKey, hk, hk', ih]

theorem setKey_eq_self {α : Type} (l : List (String × α)) (k : String) (v : α)
    (h : lookup l k = some v) : setKey l k v = l := by
  induction l with
  | nil => simp [lookup] at h
  | cons kv rest ih =>
    by_cases hk : kv.1 = k
    · simp [lookup, hk] at h
      cases kv with
      | mk k0 v0 => simp_all [setKey]
    · simp [lookup, hk] at h
      cases kv with
      | mk k0 v0 =>
        simp only at hk
        simp [setKey, hk, ih h]

/-! ## Data model (src/types.ts) -/

/-- `TaskLog` from src/types.ts: the per-day record of one task's state. -/
structure TaskLog where
  completed : Bool
  details : String
  recordedTitle : Option String
  deriving DecidableEq

/-- One value of the `Record<string, TaskLog | boolean>` map in
`DailyLogData.fixedTasks`: either a legacy bare boolean or a structured log. -/
inductive FixedEntry where
  | legacy (b : Bool)
  | log (l : TaskLog)
  deriving DecidableEq

/-- `DailyLogData` from src/types.ts. -/
structure DailyLogData where
  fixedTasks : List (String × FixedEntry)
  customTasks : List String
  mood : String
  deriving DecidableEq

/-- `DayRecord` from src/types.ts: member id → daily log data. -/
abbrev DayRecord := List (String × DailyLogData)

/-- `AppData` from src/types.ts: date key (YYYY-MM-DD) → day record. -/
abbrev AppData := List (String × DayRecord)

/-- `Task` from src/types.ts: one recurring checklist item. -/
structure Task where
  id : String
  title : String
  deriving DecidableEq

/-- `MemberConfig` from src/types.ts. -/
structure MemberConfig where
  id : String
  name : String
  birthDate : Option String
  subtitle : Option String
  visible : Bool
  themeColor : Option String
  backgroundImage : Option String
  textColor : Option String
  deriving DecidableEq

/-- `AppConfig` from src/types.ts. -/
structure AppConfig where
  tasks : List (String × List Task)
  members : List (String × MemberConfig)
  appTitle : Option String
  globalBackgroundColor : Option String
  globalBackgroundImage : Option String
  deriving DecidableEq

/-- The component's in-memory state: the `data` and `config` React states of
`App` in src/App.tsx. -/
structure State where
  data : AppData
  config : AppConfig
  deriving DecidableEq

/-- `INITIAL_DAILY_DATA` from src/constants.ts (with the fresh empty
`fixedTasks`/`customTasks` the `getMemberData` default spreads in). -/
def INITIAL_DAILY_DATA : DailyLogData := { fixedTasks := [], customTasks := [], mood := "" }

/-! ## Log Store operations (src/App.tsx) -/

/-- `getMemberData` from src/App.tsx:
`data[dateKey]?.[memberId] || { ...INITIAL_DAILY_DATA, fixedTasks: {}, customTasks: [] }`. -/
def getMemberData (st : State) (dateKey memberId : String) : DailyLogData :=
  ((lookup st.data dateKey).bind (fun day => lookup day memberId)).getD INITIAL_DAILY_DATA

/-- `getTaskState` from src/App.tsx: normalizes a legacy boolean entry, returns
a structured entry as is, and defaults to `{completed:false, details:""}`. -/
def getTaskState (st : State) (dateKey memberId taskId : String) : TaskLog :=
  match lookup (getMemberData st dateKey memberId).fixedTasks taskId with
  | some (.legacy b) => { completed := b, details := "", recordedTitle := none }
  | some (.log l) => l
  | none => { completed := false, details := "", recordedTitle := none }

/-- `updateMemberData` from src/App.tsx: merges `updates` (here a field
updater `f`) over the member's current daily data and writes the result back
under the current date key. -/
def updateMemberData (st : State) (dateKey memberId : String)
    (f : DailyLogData → DailyLogData) : State :=
  { st with
    data := setKey st.data dateKey
      (setKey ((lookup st.data dateKey).getD []) memberId
        (f (getMemberData st dateKey memberId))) }

/-- The `config.tasks[memberId]?.find(t => t.id === taskId)` pattern used by
`toggleFixedTask` and the long-press handler in src/App.tsx. -/
def liveTaskDef (st : State) (memberId taskId : String) : Option Task :=
  (lookup st.config.tasks memberId).bind (fun ts => ts.find? (fun t => t.id == taskId))

/-- `toggleFixedTask` from src/App.tsx. -/
def toggleFixedTask (st : State) (dateKey memberId taskId : String) : State :=
  let currentState := getTaskState st dateKey memberId taskId
  let currentTaskDef := liveTaskDef st memberId taskId
  updateMemberData st dateKey memberId (fun md =>
    { md with fixedTasks := setKey md.fixedTasks taskId (.log
        { currentState with
          completed := !currentState.completed
          recordedTitle :=
            if !currentState.completed then currentTaskDef.map (fun t => t.title)
            else currentState.recordedTitle }) })

/-- `saveTaskEdit` from src/App.tsx: renames the live task definition and
additionally rewrites today's log entry with the edited details and the new
title as `recordedTitle`. -/
def saveTaskEdit (st : State) (dateKey memberId id title details : String) : State :=
  let renamed : List Task :=
    ((lookup st.config.tasks memberId).getD []).map
      (fun t => if t.id == id then { t with title := title } else t)
  let st1 : State :=
    { st with config := { st.config with tasks := setKey st.config.tasks memberId renamed } }
  let currentState := getTaskState st1 dateKey memberId id
  let newLog : TaskLog := { currentState with details := details, recordedTitle := some title }
  updateMemberData st1 dateKey memberId (fun md =>
    { md with fixedTasks := setKey md.fixedTasks id (.log newLog) })

/-- `handleAddCustomTask` from src/App.tsx: appends the trimmed text, no-op on
empty/whitespace-only input. -/
def handleAddCustomTask (st : State) (dateKey memberId text : String) : State :=
  if text.trim = "" then st
  else updateMemberData st dateKey memberId
    (fun md => { md with customTasks := md.customTasks ++ [text.trim] })

/-- `arr.splice(index, 1)` on a copy, as performed by `handleRemoveCustomTask`:
a negative start counts from the end (clamped at 0), a start past the end
removes nothing. -/
def spliceRemoveOne (l : List String) (index : Int) : List String :=
  let len : Int := l.length
  let s : Int := if index < 0 then max (len + index) 0 else min index len
  l.take s.toNat ++ l.drop (s.toNat + 1)

/-- `handleRemoveCustomTask` from src/App.tsx. -/
def handleRemoveCustomTask (st : State) (dateKey memberId : String) (index : Int) : State :=
  updateMemberData st dateKey memberId
    (fun md => { md with customTasks := spliceRemoveOne md.customTasks index })

/-- `handleUpdateMood` from src/App.tsx. -/
def handleUpdateMood (st : State) (dateKey memberId mood : String) : State :=
  updateMemberData st dateKey memberId (fun md => { md with mood := mood })

/-- The member's current task definition list, `config.tasks[memberId] || []`. -/
def memberTaskDefs (st : State) (memberId : String) : List Task :=
  (lookup st.config.tasks memberId).getD []

/-- The completion test `state === true || (typeof state === 'object' && state.completed)`
used by the progress calculations in src/App.tsx. -/
def isCompletedEntry : Option FixedEntry → Bool
  | some (.legacy b) => b
  | some (.log l) => l.completed
  | none => false

/-- The `(data[dateStr]?.[memberId] || { fixedTasks: {} }).fixedTasks` read in
`getMemberProgress`. -/
def memberFixedTasksOn (st : State) (dateStr memberId : String) : List (String × FixedEntry) :=
  (((lookup st.data dateStr).bind (fun day => lookup day memberId)).map
    (fun md => md.fixedTasks)).getD []

/-- The completed-counting loop of `getMemberProgress` in src/App.tsx. -/
def memberCompletedCount (st : State) (memberId dateStr : String) : Nat :=
  (memberTaskDefs st memberId).countP
    (fun t => isCompletedEntry (lookup (memberFixedTasksOn st dateStr memberId) t.id))

/-! ### IEEE-754 binary64 model for the progress percentage

`getMemberProgress` computes `Math.round((completed / total) * 100)` on JS
doubles, and the two floating-point operations (the division and the
multiplication by 100) each round to nearest, ties to even.  At halfway
points whose quotient is not a dyadic rational this rounds differently from
exact rational arithmetic (e.g. `(23/40)*100` evaluates to
`57.49999999999999`, so `Math.round` gives 57 where exact arithmetic gives
58), so the floats are modelled bit-exactly: a non-negative double is a pair
`(m, e)` denoting `m * 2^e` with a 53-bit mantissa.  The exponent is not
clamped and the mantissa search uses 1500 normalization steps, which is
exact for every magnitude binary64 represents as a normal number; the
operands `completed` and `total` are themselves exact doubles (they are
list lengths, far below 2^53). -/

/-- Round the non-negative rational `a / b` to the nearest integer, ties to
even — the IEEE-754 default rounding applied to a ratio. -/
def rneDiv (a b : ℕ) : ℕ :=
  let q := a / b
  let r := a % b
  if 2 * r < b then q
  else if b < 2 * r then q + 1
  else if q % 2 = 0 then q else q + 1

/-- Scale the ratio `a / b` by powers of two (tracking the exponent `e`)
until it lies in the binade `[2^52, 2^53)`, so that `rneDiv` then yields the
53-bit mantissa of the correctly rounded double. -/
def normDiv : ℕ → ℕ → ℕ → ℤ → ℕ × ℕ × ℤ
  | 0, a, b, e => (a, b, e)
  | fuel + 1, a, b, e =>
    if a < 2 ^ 52 * b then normDiv fuel (2 * a) b (e - 1)
    else if 2 ^ 53 * b ≤ a then normDiv fuel a (2 * b) (e + 1)
    else (a, b, e)

/-- The binary64 result of the JS division `c / t` (mantissa, exponent);
zero when `c = 0` (and for the ill-typed `t = 0`, unused: the source guards
`total = 0`). -/
def flDiv (c t : ℕ) : ℕ × ℤ :=
  if c = 0 ∨ t = 0 then (0, 0)
  else
    let p := normDiv 1500 c t 0
    (rneDiv p.1 p.2.1, p.2.2)

/-- The binary64 result of the JS multiplication `x * 100` of the double
`(m, e)`: the exact product `100 * m * 2^e` rounded back to 53 bits. -/
def flMul100 (p : ℕ × ℤ) : ℕ × ℤ :=
  if p.1 = 0 then (0, 0)
  else
    let q := normDiv 1500 (100 * p.1) 1 p.2
    (rneDiv q.1 q.2.1, q.2.2)

/-- `Math.round` on the non-negative double `(m, e)`: the nearest integer to
the exact value `m * 2^e`, halves rounded toward +∞ (ECMA-262). -/
def jsRoundVal (p : ℕ × ℤ) : ℕ :=
  match p.2 with
  | .ofNat k => p.1 * 2 ^ k
  | .negSucc k => (2 * p.1 + 2 ^ (k + 1)) / 2 ^ (k + 2)

/-- The exact rational value of the non-negative double `(m, e)`. -/
def dval (p : ℕ × ℤ) : ℚ := (p.1 : ℚ) * 2 ^ p.2

/-- `getMemberProgress` from src/App.tsx:
`Math.round((completed / total) * 100)` computed on binary64 doubles. -/
def getMemberProgress (st : State) (memberId dateStr : String) : Nat :=
  let total := (memberTaskDefs st memberId).length
  if total = 0 then 0
  else jsRoundVal (flMul100 (flDiv (memberCompletedCount st memberId dateStr) total))

/-- The raw stored entry `data[date]?.[memberId]?.fixedTasks[taskId]` before
any normalization. -/
def rawTaskEntry (st : State) (dateKey memberId taskId : String) : Option FixedEntry :=
  ((lookup st.data dateKey).bind (fun day => lookup day memberId)).bind
    (fun md => lookup md.fixedTasks taskId)

/-! ## Basic lemmas about the store operations -/

theorem updateMemberData_config (st : State) (d m : String) (f : DailyLogData → DailyLogData) :
    (updateMemberData st d m f).config = st.config := rfl

theorem bind_lookup_eq (o : Option DayRecord) (m : String) :
    o.bind (fun day => lookup day m) = lookup (o.getD []) m := by
  cases o <;> simp [lookup]

theorem getMemberData_update_self (st : State) (d m : String)
    (f : DailyLogData → DailyLogData) :
    getMemberData (updateMemberData st d m f) d m = f (getMemberData st d m) := by
  unfold getMemberData updateMemberData
  simp [bind_lookup_eq, lookup_setKey_self, getMemberData]

theorem lookup_update_other_date (st : State) (d m d' : String)
    (f : DailyLogData → DailyLogData) (h : d' ≠ d) :
    lookup (updateMemberData st d m f).data d' = lookup st.data d' :=
  lookup_setKey_ne _ _ _ _ h

theorem lookup_updateDay_other_member (st : State) (d m m' : String)
    (f : DailyLogData → DailyLogData) (h : m' ≠ m) :
    lookup ((lookup (updateMemberData st d m f).data d).getD []) m'
      = lookup ((lookup st.data d).getD []) m' := by
  unfold updateMemberData
  simp only [lookup_setKey_self, Option.getD_some]
  exact lookup_setKey_ne _ _ _ _ h

theorem getMemberData_update_other (st : State) (d m d' m' : String)
    (f : DailyLogData → DailyLogData) (h : d' ≠ d ∨ m' ≠ m) :
    getMemberData (updateMemberData st d m f) d' m' = getMemberData st d' m' := by
  by_cases hd : d' = d
  · subst hd
    rcases h with h | h
    · exact absurd rfl h
    · unfold getMemberData
      rw [bind_lookup_eq, bind_lookup_eq, lookup_updateDay_other_member st d' m m' f h]
  · unfold getMemberData
    rw [lookup_update_other_date st d m d' f hd]

theorem getTaskState_after_write (st : State) (d m tid : String) (e : TaskLog)
    (g : DailyLogData → DailyLogData)
    (hg : ∀ md, (g md).fixedTasks = setKey md.fixedTasks tid (.log e)) :
    getTaskState (updateMemberData st d m g) d m tid = e := by
  unfold getTaskState
  rw [getMemberData_update_self, hg, lookup_setKey_self]

/-- Reading back the entry written by a toggle: completion is flipped, the
details survive, and the recorded title is either stamped from the live
definition (on a check) or kept (on an uncheck). -/
theorem getTaskState_toggle (st : State) (d m tid : String) :
    getTaskState (toggleFixedTask st d m tid) d m tid =
      { getTaskState st d m tid with
        completed := !(getTaskState st d m tid).completed
        recordedTitle :=
          if !(getTaskState st d m tid).completed then
            (liveTaskDef st m tid).map (fun t => t.title)
          else (getTaskState st d m tid).recordedTitle } := by
  unfold toggleFixedTask
  exact getTaskState_after_write st d m tid _ _ (fun _ => rfl)

/-! ## Sample states used by the witnesses -/

def exampleConfig : AppConfig :=
  { tasks := [("m1", [{ id := "t1", title := "Read" }, { id := "t2", title := "Piano" }])]
    members := [("m1",
      { id := "m1", name := "Amy", birthDate := some "2015-05-10", subtitle := none
        visible := true, themeColor := none, backgroundImage := none, textColor := none })]
    appTitle := some "Home", globalBackgroundColor := none, globalBackgroundImage := none }

def exampleState : State :=
  { data := [("2024-01-01",
      [("m1",
        { fixedTasks :=
            [("t1", .log { completed := false, details := "note", recordedTitle := some "Old" }),
             ("t2", .legacy true)]
          customTasks := ["a", "b"], mood := "happy" })])]
    config := exampleConfig }

/-! ## Claims -/

/-- C1: for every member, task and date, and every state, `toggleTask` flips
`completed`; on an incomplete-to-complete transition it stamps
`recordedTitle` from the live task definition's current title, on a
complete-to-incomplete transition it leaves `recordedTitle` exactly as it
was; `details` is unchanged in both directions. -/
theorem toggleTask_flips_and_stamps (st : State) (d m tid : String) (tdef : Task)
    (hdef : liveTaskDef st m tid = some tdef) :
    getTaskState (toggleFixedTask st d m tid) d m tid =
      { completed := !(getTaskState st d m tid).completed
        details := (getTaskState st d m tid).details
        recordedTitle :=
          if (getTaskState st d m tid).completed then (getTaskState st d m tid).recordedTitle
          else some tdef.title } := by
  rw [getTaskState_toggle, hdef]
  cases hc : (getTaskState st d m tid).completed <;> simp [hc]

theorem toggleTask_flips_and_stamps_witness :
    liveTaskDef exampleState "m1" "t1" = some { id := "t1", title := "Read" } ∧
    getTaskState (toggleFixedTask exampleState "2024-01-01" "m1" "t1") "2024-01-01" "m1" "t1" =
      { completed := true, details := "note", recordedTitle := some "Read" } :=
  ⟨rfl, toggleTask_flips_and_stamps exampleState "2024-01-01" "m1" "t1"
    { id := "t1", title := "Read" } rfl⟩

/-- C2: toggling twice restores `completed` to its original value; if the
task was originally incomplete, after the two toggles `recordedTitle` holds
the live definition's title as of the first toggle (not the pre-toggle
recorded title). -/
theorem toggleTask_twice (st : State) (d m tid : String) :
    (getTaskState (toggleFixedTask (toggleFixedTask st d m tid) d m tid) d m tid).completed
        = (getTaskState st d m tid).completed ∧
    (∀ tdef : Task, liveTaskDef st m tid = some tdef →
      (getTaskState st d m tid).completed = false →
      (getTaskState (toggleFixedTask (toggleFixedTask st d m tid) d m tid) d m tid).recordedTitle
        = some tdef.title) := by
  have h1 := getTaskState_toggle st d m tid
  have h2 := getTaskState_toggle (toggleFixedTask st d m tid) d m tid
  constructor
  · rw [h2, h1]
    simp
  · intro tdef hdef hinc
    rw [h2, h1]
    simp [hinc, hdef]

theorem toggleTask_twice_witness :
    (getTaskState
        (toggleFixedTask (toggleFixedTask exampleState "2024-01-01" "m1" "t1")
          "2024-01-01" "m1" "t1") "2024-01-01" "m1" "t1").completed = false ∧
    (getTaskState
        (toggleFixedTask (toggleFixedTask exampleState "2024-01-01" "m1" "t1")
          "2024-01-01" "m1" "t1") "2024-01-01" "m1" "t1").recordedTitle = some "Read" :=
  ⟨(toggleTask_twice exampleState "2024-01-01" "m1" "t1").1,
   (toggleTask_twice exampleState "2024-01-01" "m1" "t1").2
     { id := "t1", title := "Read" } rfl rfl⟩

theorem lookup_fixedTasks_eq_raw (st : State) (d m tid : String) :
    lookup (getMemberData st d m).fixedTasks tid = rawTaskEntry st d m tid := by
  unfold getMemberData rawTaskEntry
  cases h : (lookup st.data d).bind (fun day => lookup day m) <;>
    simp [h, INITIAL_DAILY_DATA, lookup]

/-- C4: `getTaskState` returns a normalized task log: a stored bare boolean
`b` becomes `{completed := b, details := "", recordedTitle := none}`, a
stored structured entry is returned as is, and a missing entry yields
`{completed := false, details := ""}`. -/
theorem getTaskState_normalizes (st : State) (d m tid : String) :
    (∀ b, rawTaskEntry st d m tid = some (.legacy b) →
        getTaskState st d m tid = { completed := b, details := "", recordedTitle := none }) ∧
    (∀ l, rawTaskEntry st d m tid = some (.log l) → getTaskState st d m tid = l) ∧
    (rawTaskEntry st d m tid = none →
        getTaskState st d m tid = { completed := false, details := "", recordedTitle := none }) := by
  refine ⟨fun b hb => ?_, fun l hl => ?_, fun hn => ?_⟩ <;>
    [skip; skip; skip] <;>
    first
    | (unfold getTaskState; rw [lookup_fixedTasks_eq_raw, hb])
    | (unfold getTaskState; rw [lookup_fixedTasks_eq_raw, hl])
    | (unfold getTaskState; rw [lookup_fixedTasks_eq_raw, hn])

theorem getTaskState_normalizes_witness :
    getTaskState exampleState "2024-01-01" "m1" "t2"
        = { completed := true, details := "", recordedTitle := none } ∧
    getTaskState exampleState "2024-01-01" "m1" "t1"
        = { completed := false, details := "note", recordedTitle := some "Old" } ∧
    getTaskState exampleState "2024-01-01" "m1" "t3"
        = { completed := false, details := "", recordedTitle := none } :=
  ⟨(getTaskState_normalizes exampleState "2024-01-01" "m1" "t2").1 true rfl,
   (getTaskState_normalizes exampleState "2024-01-01" "m1" "t1").2.1
     { completed := false, details := "note", recordedTitle := some "Old" } rfl,
   (getTaskState_normalizes exampleState "2024-01-01" "m1" "t3").2.2 rfl⟩

theorem rneDiv_le_div_add_one (a b : ℕ) : rneDiv a b ≤ a / b + 1 := by
  simp only [rneDiv]
  split_ifs <;> omega

/-- `rneDiv` really is a nearest-integer rounding: within a half of `a / b`. -/
theorem rneDiv_q_bounds (a b : ℕ) (hb : 0 < b) :
    (a : ℚ) / b - 1 / 2 ≤ (rneDiv a b : ℚ) ∧ (rneDiv a b : ℚ) ≤ (a : ℚ) / b + 1 / 2 := by
  have hbq : (0 : ℚ) < (b : ℚ) := by exact_mod_cast hb
  have hmod : (b : ℚ) * ((a / b : ℕ) : ℚ) + ((a % b : ℕ) : ℚ) = a := by
    exact_mod_cast Nat.div_add_mod a b
  have hkey : (a : ℚ) / b = ((a / b : ℕ) : ℚ) + ((a % b : ℕ) : ℚ) / b := by
    field_simp
    linarith
  have hrlt : ((a % b : ℕ) : ℚ) < b := by exact_mod_cast Nat.mod_lt a hb
  have hrnn : (0 : ℚ) ≤ ((a % b : ℕ) : ℚ) := by positivity
  have hdnn : (0 : ℚ) ≤ ((a % b : ℕ) : ℚ) / b := by positivity
  simp only [rneDiv]
  split_ifs with h1 h2 h3
  · have h1q : 2 * ((a % b : ℕ) : ℚ) < b := by exact_mod_cast h1
    have hlt : ((a % b : ℕ) : ℚ) / b < 1 / 2 := by
      rw [div_lt_iff₀ hbq]
      linarith
    constructor <;> (rw [hkey]; push_cast; linarith)
  · have h2q : (b : ℚ) < 2 * ((a % b : ℕ) : ℚ) := by exact_mod_cast h2
    have hgt : (1 : ℚ) / 2 < ((a % b : ℕ) : ℚ) / b := by
      rw [lt_div_iff₀ hbq]
      linarith
    have hlt1 : ((a % b : ℕ) : ℚ) / b < 1 := by
      rw [div_lt_one hbq]
      linarith
    constructor <;> (rw [hkey]; push_cast; linarith)
  · have heqn : 2 * (a % b) = b := by omega
    have heq : 2 * ((a % b : ℕ) : ℚ) = b := by exact_mod_cast heqn
    have hhalf : ((a % b : ℕ) : ℚ) / b = 1 / 2 := by
      rw [div_eq_iff (ne_of_gt hbq)]
      linarith
    constructor <;> (rw [hkey]; push_cast; linarith)
  · have heqn : 2 * (a % b) = b := by omega
    have heq : 2 * ((a % b : ℕ) : ℚ) = b := by exact_mod_cast heqn
    have hhalf : ((a % b : ℕ) : ℚ) / b = 1 / 2 := by
      rw [div_eq_iff (ne_of_gt hbq)]
      linarith
    constructor <;> (rw [hkey]; push_cast; linarith)

/-- Invariants of the mantissa normalization loop: the represented value is
preserved, the ratio never drops below the binade once reached, the ratio
stays below `2^53` if it started there, and on exit the ratio is either
normalized, or the fuel ran out while scaling up (exponent `e - fuel`), or
the initial ratio was at least `2^(fuel+53)`. -/
theorem normDiv_spec : ∀ (fuel a b : ℕ) (e : ℤ) (a' b' : ℕ) (e' : ℤ),
    normDiv fuel a b e = (a', b', e') → 0 < a → 0 < b →
    (0 < a' ∧ 0 < b') ∧
    (a' : ℚ) / (b' : ℚ) * 2 ^ e' = (a : ℚ) / (b : ℚ) * 2 ^ e ∧
    (2 ^ 52 * b ≤ a → 2 ^ 52 * b' ≤ a') ∧
    (a < 2 ^ 53 * b → a' < 2 ^ 53 * b' ∧ e' ≤ e) ∧
    ((2 ^ 52 * b' ≤ a' ∧ a' < 2 ^ 53 * b') ∨ (a' < 2 ^ 52 * b' ∧ e' = e - fuel) ∨
      2 ^ fuel * 2 ^ 53 * b ≤ a) := by
  intro fuel
  induction fuel with
  | zero =>
    intro a b e a' b' e' h ha hb
    simp only [normDiv, Prod.mk.injEq] at h
    obtain ⟨rfl, rfl, rfl⟩ := h
    refine ⟨⟨ha, hb⟩, rfl, fun h => h, fun h => ⟨h, le_refl e⟩, ?_⟩
    by_cases hlo : 2 ^ 52 * b ≤ a
    · by_cases hhi : a < 2 ^ 53 * b
      · exact Or.inl ⟨hlo, hhi⟩
      · exact Or.inr (Or.inr (by omega))
    · exact Or.inr (Or.inl ⟨by omega, by omega⟩)
  | succ fuel ih =>
    intro a b e a' b' e' h ha hb
    simp only [normDiv] at h
    by_cases h1 : a < 2 ^ 52 * b
    · rw [if_pos h1] at h
      obtain ⟨⟨ha', hb'⟩, hval, hmono, hsmall, hcases⟩ :=
        ih (2 * a) b (e - 1) a' b' e' h (by omega) hb
      refine ⟨⟨ha', hb'⟩, ?_, ?_, ?_, ?_⟩
      · rw [hval]
        have hbq : (b : ℚ) ≠ 0 := Nat.cast_ne_zero.mpr (by omega)
        push_cast
        rw [zpow_sub_one₀ (by norm_num : (2 : ℚ) ≠ 0)]
        field_simp
        ring
      · intro hge
        exact hmono (by omega)
      · intro hlt
        obtain ⟨hlt', he'⟩ := hsmall (by omega)
        exact ⟨hlt', by omega⟩
      · rcases hcases with hc | hc | hc
        · exact Or.inl hc
        · exact Or.inr (Or.inl ⟨hc.1, by omega⟩)
        · exfalso
          have hpow : 1 ≤ 2 ^ fuel := Nat.one_le_two_pow
          have h3 : 2 ^ 53 * b ≤ 2 ^ fuel * 2 ^ 53 * b := by
            calc 2 ^ 53 * b = 1 * (2 ^ 53 * b) := by ring
              _ ≤ 2 ^ fuel * (2 ^ 53 * b) := Nat.mul_le_mul_right _ hpow
              _ = 2 ^ fuel * 2 ^ 53 * b := by ring
          have h4 : 2 * a < 2 ^ 53 * b := by omega
          exact absurd h4 (not_lt.mpr (le_trans h3 hc))
    · by_cases h2 : 2 ^ 53 * b ≤ a
      · rw [if_neg h1, if_pos h2] at h
        obtain ⟨⟨ha', hb'⟩, hval, hmono, hsmall, hcases⟩ :=
          ih a (2 * b) (e + 1) a' b' e' h ha (by omega)
        refine ⟨⟨ha', hb'⟩, ?_, ?_, ?_, ?_⟩
        · rw [hval]
          have hbq : (b : ℚ) ≠ 0 := Nat.cast_ne_zero.mpr (by omega)
          push_cast
          rw [zpow_add_one₀ (by norm_num : (2 : ℚ) ≠ 0)]
          field_simp
          ring
        · intro hge
          exact hmono (by omega)
        · intro hlt
          exact absurd hlt (by omega)
        · rcases hcases with hc | hc | hc
          · exact Or.inl hc
          · exfalso
            obtain ⟨hc1, _⟩ := hc
            have := hmono (by omega)
            omega
          · refine Or.inr (Or.inr ?_)
            have heq : 2 ^ (fuel + 1) * 2 ^ 53 * b = 2 ^ fuel * 2 ^ 53 * (2 * b) := by
              rw [pow_succ]
              ring
            rw [heq]
            exact hc
      · rw [if_neg h1, if_neg h2] at h
        simp only [Prod.mk.injEq] at h
        obtain ⟨rfl, rfl, rfl⟩ := h
        exact ⟨⟨ha, hb⟩, rfl, fun h => h, fun h => ⟨h, le_refl e⟩, Or.inl ⟨by omega, by omega⟩⟩

theorem two_zpow_neg1500 : (2 : ℚ) ^ ((-1500 : ℤ)) = (1 / 2) ^ 1500 := by
  rw [zpow_neg, div_pow, one_pow, ← zpow_natCast]
  norm_num

/-- Correct-rounding bounds for the modelled double division: the result is
non-negative, within a relative `2^(-52)` (plus the negligible fuel slack)
of `c / t`, and its mantissa and exponent are in range. -/
theorem flDiv_spec (c t : ℕ) (ht : 0 < t) (hle : c ≤ t) :
    0 ≤ dval (flDiv c t) ∧
    (c : ℚ) / t - ((c : ℚ) / t) / 2 ^ 52 - (1 / 2) ^ 1500 ≤ dval (flDiv c t) ∧
    dval (flDiv c t) ≤ (c : ℚ) / t + ((c : ℚ) / t) / 2 ^ 52 + (1 / 2) ^ 1500 ∧
    (flDiv c t).1 ≤ 2 ^ 53 ∧ (flDiv c t).2 ≤ 0 := by
  by_cases hc : c = 0
  · subst hc
    have hd : dval (flDiv 0 t) = 0 := by
      simp [flDiv, dval]
    have hfl0 : flDiv 0 t = (0, 0) := by
      simp [flDiv]
    have hv0 : ((0 : ℕ) : ℚ) / t = 0 := by norm_num
    have hev : (0 : ℚ) ≤ ((1 : ℚ) / 2) ^ 1500 := by positivity
    have hz : (0 : ℚ) / 2 ^ 52 = 0 := by norm_num
    refine ⟨by rw [hd], ?_, ?_, ?_, ?_⟩
    · rw [hd, hv0, hz]
      linarith
    · rw [hd, hv0, hz]
      linarith
    · rw [hfl0]
      norm_num
    · rw [hfl0]
  · have hc0 : 0 < c := Nat.pos_of_ne_zero hc
    have hne : ¬(c = 0 ∨ t = 0) := by omega
    rcases hN : normDiv 1500 c t 0 with ⟨a', b', e'⟩
    have hfl : flDiv c t = (rneDiv a' b', e') := by
      simp [flDiv, hne, hN]
    obtain ⟨⟨ha', hb'⟩, hval, hmono, hsmall, hcases⟩ := normDiv_spec 1500 c t 0 a' b' e' hN hc0 ht
    have hlt53 : c < 2 ^ 53 * t := by omega
    obtain ⟨hub, he0⟩ := hsmall hlt53
    have hval' : (a' : ℚ) / b' * 2 ^ e' = (c : ℚ) / t := by
      rw [hval]
      norm_num
    have hbq : (0 : ℚ) < (b' : ℚ) := by exact_mod_cast hb'
    have haq : (0 : ℚ) < (a' : ℚ) := by exact_mod_cast ha'
    have hpe : (0 : ℚ) < (2 : ℚ) ^ e' := zpow_pos (by norm_num) e'
    obtain ⟨hr1, hr2⟩ := rneDiv_q_bounds a' b' hb'
    have hdv : dval (flDiv c t) = (rneDiv a' b' : ℚ) * 2 ^ e' := by
      rw [hfl]
      rfl
    have hvnn : (0 : ℚ) ≤ (c : ℚ) / t := by positivity
    have hbound : (2 : ℚ) ^ e' / 2 ≤ ((c : ℚ) / t) / 2 ^ 52 + (1 / 2) ^ 1500 := by
      have hepsnn : (0 : ℚ) ≤ (1 / 2 : ℚ) ^ 1500 := by positivity
      rcases hcases with ⟨hlo, _⟩ | ⟨_, heq⟩ | hbig
      · have hcast : ((2 : ℚ) ^ 52) * b' ≤ a' := by exact_mod_cast hlo
        have h2e : (2 : ℚ) ^ e' = (c : ℚ) / t * ((b' : ℚ) / a') := by
          rw [← hval']
          field_simp
        have hba : (b' : ℚ) / a' ≤ 1 / 2 ^ 52 := by
          rw [div_le_div_iff₀ haq (by positivity)]
          nlinarith [hcast]
        have hmul : (c : ℚ) / t * ((b' : ℚ) / a') ≤ (c : ℚ) / t * (1 / 2 ^ 52) :=
          mul_le_mul_of_nonneg_left hba hvnn
        have h2eb : (2 : ℚ) ^ e' ≤ ((c : ℚ) / t) / 2 ^ 52 := by
          rw [h2e]
          calc (c : ℚ) / t * ((b' : ℚ) / a') ≤ (c : ℚ) / t * (1 / 2 ^ 52) := hmul
            _ = ((c : ℚ) / t) / 2 ^ 52 := by ring
        linarith
      · have he' : e' = -1500 := by omega
        have h15 : (2 : ℚ) ^ e' = (1 / 2) ^ 1500 := by
          rw [he']
          exact two_zpow_neg1500
        linarith
      · exfalso
        omega
    constructor
    · rw [hdv]
      positivity
    refine ⟨?_, ?_, ?_, ?_⟩
    · rw [hdv, ← hval']
      nlinarith [hr1, hpe, hbound, hval']
    · rw [hdv, ← hval']
      nlinarith [hr2, hpe, hbound, hval']
    · have hq53 : a' / b' < 2 ^ 53 := Nat.div_lt_iff_lt_mul hb' |>.mpr (by omega)
      have hrle := rneDiv_le_div_add_one a' b'
      rw [hfl]
      show rneDiv a' b' ≤ 2 ^ 53
      omega
    · rw [hfl]
      exact he0

/-- Correct-rounding bounds for the modelled double multiplication by 100. -/
theorem flMul100_spec (p : ℕ × ℤ) (hm : p.1 ≤ 2 ^ 53) (he : p.2 ≤ 0) :
    0 ≤ dval (flMul100 p) ∧
    100 * dval p - 100 * dval p / 2 ^ 52 - (1 / 2) ^ 1500 ≤ dval (flMul100 p) ∧
    dval (flMul100 p) ≤ 100 * dval p + 100 * dval p / 2 ^ 52 + (1 / 2) ^ 1500 := by
  rcases p with ⟨m, e⟩
  by_cases hm0 : m = 0
  · subst hm0
    have hd : dval (flMul100 (0, e)) = 0 := by
      simp [flMul100, dval]
    have hy : dval ((0 : ℕ), e) = 0 := by
      simp [dval]
    have hev : (0 : ℚ) ≤ ((1 : ℚ) / 2) ^ 1500 := by positivity
    have hz : (100 : ℚ) * 0 / 2 ^ 52 = 0 := by norm_num
    rw [hd, hy, hz]
    refine ⟨le_refl 0, by linarith, by linarith⟩
  · rcases hN : normDiv 1500 (100 * m) 1 e with ⟨a', b', e'⟩
    have hfl : flMul100 (m, e) = (rneDiv a' b', e') := by
      simp [flMul100, hm0, hN]
    obtain ⟨⟨ha', hb'⟩, hval, hmono, hsmall, hcases⟩ :=
      normDiv_spec 1500 (100 * m) 1 e a' b' e' hN (by omega) one_pos
    have hyv : dval ((m : ℕ), e) = (m : ℚ) * 2 ^ e := rfl
    have hval' : (a' : ℚ) / b' * 2 ^ e' = 100 * ((m : ℚ) * 2 ^ e) := by
      rw [hval]
      push_cast
      ring
    have hbq : (0 : ℚ) < (b' : ℚ) := by exact_mod_cast hb'
    have haq : (0 : ℚ) < (a' : ℚ) := by exact_mod_cast ha'
    have hpe : (0 : ℚ) < (2 : ℚ) ^ e' := zpow_pos (by norm_num) e'
    obtain ⟨hr1, hr2⟩ := rneDiv_q_bounds a' b' hb'
    have hdv : dval (flMul100 (m, e)) = (rneDiv a' b' : ℚ) * 2 ^ e' := by
      rw [hfl]
      rfl
    have hynn : (0 : ℚ) ≤ 100 * ((m : ℚ) * 2 ^ e) := by positivity
    have hbound : (2 : ℚ) ^ e' / 2
        ≤ (100 * ((m : ℚ) * 2 ^ e)) / 2 ^ 52 + (1 / 2) ^ 1500 := by
      have hepsnn : (0 : ℚ) ≤ (1 / 2 : ℚ) ^ 1500 := by positivity
      rcases hcases with ⟨hlo, _⟩ | ⟨_, heq⟩ | hbig
      · have hcast : ((2 : ℚ) ^ 52) * b' ≤ a' := by exact_mod_cast hlo
        have h2e : (2 : ℚ) ^ e' = 100 * ((m : ℚ) * 2 ^ e) * ((b' : ℚ) / a') := by
          rw [← hval']
          field_simp
        have hba : (b' : ℚ) / a' ≤ 1 / 2 ^ 52 := by
          rw [div_le_div_iff₀ haq (by positivity)]
          nlinarith [hcast]
        have hmul : 100 * ((m : ℚ) * 2 ^ e) * ((b' : ℚ) / a')
            ≤ 100 * ((m : ℚ) * 2 ^ e) * (1 / 2 ^ 52) :=
          mul_le_mul_of_nonneg_left hba hynn
        have h2eb : (2 : ℚ) ^ e' ≤ (100 * ((m : ℚ) * 2 ^ e)) / 2 ^ 52 := by
          rw [h2e]
          calc 100 * ((m : ℚ) * 2 ^ e) * ((b' : ℚ) / a')
              ≤ 100 * ((m : ℚ) * 2 ^ e) * (1 / 2 ^ 52) := hmul
            _ = (100 * ((m : ℚ) * 2 ^ e)) / 2 ^ 52 := by ring
        linarith
      · have he' : e' ≤ -1500 := by omega
        have hmono2 : (2 : ℚ) ^ e' ≤ (2 : ℚ) ^ ((-1500 : ℤ)) :=
          zpow_le_zpow_right₀ (by norm_num) he'
        have h15 : (2 : ℚ) ^ ((-1500 : ℤ)) = (1 / 2) ^ 1500 := two_zpow_neg1500
        have hdnn : (0 : ℚ) ≤ 100 * ((m : ℚ) * 2 ^ e) / 2 ^ 52 := by positivity
        calc (2 : ℚ) ^ e' / 2 ≤ (2 : ℚ) ^ e' := by linarith
          _ ≤ (2 : ℚ) ^ ((-1500 : ℤ)) := hmono2
          _ = (1 / 2) ^ 1500 := h15
          _ ≤ 100 * ((m : ℚ) * 2 ^ e) / 2 ^ 52 + (1 / 2) ^ 1500 := by linarith
      · exfalso
        omega
    refine ⟨?_, ?_, ?_⟩
    · rw [hdv]
      positivity
    · rw [hdv, hyv, ← hval']
      nlinarith [hr1, hpe, hbound, hval']
    · rw [hdv, hyv, ← hval']
      nlinarith [hr2, hpe, hbound, hval']

/-- `jsRoundVal` really is `Math.round`: the floor of the double's exact
value plus one half. -/
theorem jsRoundVal_eq (p : ℕ × ℤ) : jsRoundVal p = ⌊dval p + 1 / 2⌋₊ := by
  rcases p with ⟨m, e⟩
  cases e with
  | ofNat k =>
    show m * 2 ^ k = ⌊(m : ℚ) * 2 ^ (Int.ofNat k) + 1 / 2⌋₊
    have hcast : (m : ℚ) * 2 ^ (Int.ofNat k) = ((m * 2 ^ k : ℕ) : ℚ) := by
      push_cast [Int.ofNat_eq_natCast, zpow_natCast]
      ring
    rw [hcast]
    symm
    rw [Nat.floor_eq_iff (by positivity)]
    constructor
    · linarith
    · push_cast
      linarith
  | negSucc k =>
    show (2 * m + 2 ^ (k + 1)) / 2 ^ (k + 2) = ⌊(m : ℚ) * 2 ^ (Int.negSucc k) + 1 / 2⌋₊
    have h1 : (m : ℚ) * 2 ^ (Int.negSucc k) + 1 / 2
        = ((2 * m + 2 ^ (k + 1) : ℕ) : ℚ) / ((2 ^ (k + 2) : ℕ) : ℚ) := by
      rw [zpow_negSucc]
      have hne : ((2 : ℚ) ^ (k + 1)) ≠ 0 := by positivity
      push_cast
      field_simp
      ring
    rw [h1, Nat.floor_div_nat, Nat.floor_natCast]

/-- The assembled bounds on `Math.round((c/t)*100)` computed in binary64:
it is at most 100 and within one of the exact half-up rounding of
`100*c/t`. -/
theorem jsPct_spec (c t : ℕ) (ht : 0 < t) (hct : c ≤ t) :
    jsRoundVal (flMul100 (flDiv c t)) ≤ 100 ∧
    jsRoundVal (flMul100 (flDiv c t)) ≤ ⌊100 * (c : ℚ) / t + 1 / 2⌋₊ + 1 ∧
    ⌊100 * (c : ℚ) / t + 1 / 2⌋₊ ≤ jsRoundVal (flMul100 (flDiv c t)) + 1 := by
  obtain ⟨hy0, hylo, hyhi, hm53, he0⟩ := flDiv_spec c t ht hct
  obtain ⟨hw0, hwlo, hwhi⟩ := flMul100_spec (flDiv c t) hm53 he0
  have htq : (0 : ℚ) < t := by exact_mod_cast ht
  have hv0 : (0 : ℚ) ≤ (c : ℚ) / t := by positivity
  have hv1 : (c : ℚ) / t ≤ 1 := by
    rw [div_le_one htq]
    exact_mod_cast hct
  have hero : ((1 : ℚ) / 2) ^ 1500 ≤ 1 / 2 ^ 52 := by
    calc ((1 : ℚ) / 2) ^ 1500 ≤ (1 / 2) ^ 52 :=
          pow_le_pow_of_le_one (by norm_num) (by norm_num) (by norm_num)
      _ = 1 / 2 ^ 52 := by rw [div_pow, one_pow]
  have hvdiv : ((c : ℚ) / t) / 2 ^ 52 ≤ 1 / 2 ^ 52 := by gcongr
  have hyU : dval (flDiv c t) ≤ 1 + 2 / 2 ^ 52 := by linarith
  have h100yU : 100 * dval (flDiv c t) ≤ 104 := by
    have h4 : (200 : ℚ) / 2 ^ 52 ≤ 4 := by norm_num
    linarith
  have hydivU : 100 * dval (flDiv c t) / 2 ^ 52 ≤ 104 / 2 ^ 52 := by gcongr
  have hbridge : 100 * ((c : ℚ) / t) = 100 * (c : ℚ) / t := by ring
  have hnum : (305 : ℚ) / 2 ^ 52 ≤ 1 / 4 := by norm_num
  have ha : 100 * (((c : ℚ) / t) / 2 ^ 52) ≤ 100 / 2 ^ 52 := by linarith
  have hwU : dval (flMul100 (flDiv c t)) ≤ 100 * ((c : ℚ) / t) + 1 / 4 := by
    linarith
  have hwL : 100 * ((c : ℚ) / t) - 1 / 4 ≤ dval (flMul100 (flDiv c t)) := by
    linarith
  rw [jsRoundVal_eq]
  have hfloor0 : (0 : ℚ) ≤ dval (flMul100 (flDiv c t)) + 1 / 2 := by linarith
  refine ⟨?_, ?_, ?_⟩
  · have hlt : dval (flMul100 (flDiv c t)) + 1 / 2 < ((101 : ℕ) : ℚ) := by
      push_cast
      linarith
    have := (Nat.floor_lt hfloor0).mpr hlt
    omega
  · have hle : dval (flMul100 (flDiv c t)) + 1 / 2 ≤ (100 * (c : ℚ) / t + 1 / 2) + 1 := by
      linarith
    calc ⌊dval (flMul100 (flDiv c t)) + 1 / 2⌋₊
        ≤ ⌊(100 * (c : ℚ) / t + 1 / 2) + 1⌋₊ := Nat.floor_le_floor hle
      _ = ⌊100 * (c : ℚ) / t + 1 / 2⌋₊ + 1 := Nat.floor_add_one (by positivity)
  · have hle : 100 * (c : ℚ) / t + 1 / 2 ≤ (dval (flMul100 (flDiv c t)) + 1 / 2) + 1 := by
      linarith
    calc ⌊100 * (c : ℚ) / t + 1 / 2⌋₊
        ≤ ⌊(dval (flMul100 (flDiv c t)) + 1 / 2) + 1⌋₊ := Nat.floor_le_floor hle
      _ = ⌊dval (flMul100 (flDiv c t)) + 1 / 2⌋₊ + 1 := Nat.floor_add_one hfloor0

/-- A member with forty task definitions of which the first twenty-three are
completed on 2024-01-01: the ratio 23/40 is not a dyadic rational, so its
double is slightly below 0.575 and `(23/40)*100` evaluates to
`57.49999999999999`. -/
def bigTasks : List Task :=
  [⟨"a01", "x"⟩, ⟨"a02", "x"⟩, ⟨"a03", "x"⟩, ⟨"a04", "x"⟩, ⟨"a05", "x"⟩,
   ⟨"a06", "x"⟩, ⟨"a07", "x"⟩, ⟨"a08", "x"⟩, ⟨"a09", "x"⟩, ⟨"a10", "x"⟩,
   ⟨"a11", "x"⟩, ⟨"a12", "x"⟩, ⟨"a13", "x"⟩, ⟨"a14", "x"⟩, ⟨"a15", "x"⟩,
   ⟨"a16", "x"⟩, ⟨"a17", "x"⟩, ⟨"a18", "x"⟩, ⟨"a19", "x"⟩, ⟨"a20", "x"⟩,
   ⟨"a21", "x"⟩, ⟨"a22", "x"⟩, ⟨"a23", "x"⟩, ⟨"a24", "x"⟩, ⟨"a25", "x"⟩,
   ⟨"a26", "x"⟩, ⟨"a27", "x"⟩, ⟨"a28", "x"⟩, ⟨"a29", "x"⟩, ⟨"a30", "x"⟩,
   ⟨"a31", "x"⟩, ⟨"a32", "x"⟩, ⟨"a33", "x"⟩, ⟨"a34", "x"⟩, ⟨"a35", "x"⟩,
   ⟨"a36", "x"⟩, ⟨"a37", "x"⟩, ⟨"a38", "x"⟩, ⟨"a39", "x"⟩, ⟨"a40", "x"⟩]

def bigState : State :=
  { data := [("2024-01-01",
      [("m1",
        { fixedTasks := (bigTasks.take 23).map (fun t => (t.id, FixedEntry.legacy true))
          customTasks := [], mood := "" })])]
    config := { tasks := [("m1", bigTasks)], members := [], appTitle := none
                globalBackgroundColor := none, globalBackgroundImage := none } }

/-- C3 counterexample: with 40 task definitions of which 23 are completed,
the source's IEEE-double evaluation of `(23/40)*100` is `57.49999999999999`
and `Math.round` returns 57, while the claimed exact rounding
`round(100*23/40) = round(57.5)` is 58 — the claimed identity fails on the
code at this input. -/
theorem memberProgress_float_counterexample :
    (memberTaskDefs bigState "m1").length = 40 ∧
    memberCompletedCount bigState "m1" "2024-01-01" = 23 ∧
    getMemberProgress bigState "m1" "2024-01-01" = 57 ∧
    ⌊100 * (23 : ℚ) / 40 + 1 / 2⌋₊ = 58 := by
  refine ⟨by decide, by decide, by decide, ?_⟩
  have h : 100 * (23 : ℚ) / 40 + 1 / 2 = ((58 : ℕ) : ℚ) := by norm_num
  rw [h, Nat.floor_natCast]

/-- C3 (amended): `getMemberProgress` is a percentage in [0,100]; it is 0
for a member with no task definitions; and otherwise it is the nearest
integer (half up) to the IEEE-754 double evaluation of
`100 * completedCount / totalDefinitionCount`, which always lies within one
of the exact half-up rounding `round(100 * completedCount / total)` but can
fall one below it at halfway points whose quotient is not a dyadic
rational. -/
theorem memberProgress_float_spec (st : State) (m d : String) :
    getMemberProgress st m d ≤ 100 ∧
    ((memberTaskDefs st m).length = 0 → getMemberProgress st m d = 0) ∧
    (0 < (memberTaskDefs st m).length →
      getMemberProgress st m d ≤
        ⌊100 * (memberCompletedCount st m d : ℚ) / ((memberTaskDefs st m).length : ℚ)
          + 1 / 2⌋₊ + 1 ∧
      ⌊100 * (memberCompletedCount st m d : ℚ) / ((memberTaskDefs st m).length : ℚ)
          + 1 / 2⌋₊ ≤ getMemberProgress st m d + 1) := by
  by_cases h0 : (memberTaskDefs st m).length = 0
  · refine ⟨?_, fun _ => ?_, fun hpos => absurd h0 (by omega)⟩ <;>
      simp [getMemberProgress, h0]
  · have ht : 0 < (memberTaskDefs st m).length := Nat.pos_of_ne_zero h0
    have hct : memberCompletedCount st m d ≤ (memberTaskDefs st m).length :=
      List.countP_le_length _
    have hprog : getMemberProgress st m d
        = jsRoundVal (flMul100
            (flDiv (memberCompletedCount st m d) (memberTaskDefs st m).length)) := by
      simp [getMemberProgress, h0]
    obtain ⟨hb1, hb2, hb3⟩ :=
      jsPct_spec (memberCompletedCount st m d) (memberTaskDefs st m).length ht hct
    rw [hprog]
    exact ⟨hb1, fun hz => absurd hz h0, fun _ => ⟨hb2, hb3⟩⟩

theorem memberProgress_float_spec_witness :
    getMemberProgress exampleState "m1" "2024-01-01" ≤ 100 ∧
    getMemberProgress exampleState "nobody" "2024-01-01" = 0 ∧
    getMemberProgress exampleState "m1" "2024-01-01" ≤
      ⌊100 * (memberCompletedCount exampleState "m1" "2024-01-01" : ℚ)
        / ((memberTaskDefs exampleState "m1").length : ℚ) + 1 / 2⌋₊ + 1 ∧
    ⌊100 * (memberCompletedCount exampleState "m1" "2024-01-01" : ℚ)
      / ((memberTaskDefs exampleState "m1").length : ℚ) + 1 / 2⌋₊ ≤
      getMemberProgress exampleState "m1" "2024-01-01" + 1 :=
  ⟨(memberProgress_float_spec exampleState "m1" "2024-01-01").1,
   (memberProgress_float_spec exampleState "nobody" "2024-01-01").2.1 rfl,
   ((memberProgress_float_spec exampleState "m1" "2024-01-01").2.2 (by decide)).1,
   ((memberProgress_float_spec exampleState "m1" "2024-01-01").2.2 (by decide)).2⟩

/-- C9 counterexample: the claim says every out-of-range index is a no-op,
but the index −1 is out of range (valid positions of the two-element list
are 0 and 1) and `removeCustomTask` at −1 removes the LAST element, because
JS `splice(-1, 1)` counts a negative start from the end of the array. -/
theorem removeCustomTask_negative_counterexample :
    (getMemberData exampleState "2024-01-01" "m1").customTasks = ["a", "b"] ∧
    (getMemberData (handleRemoveCustomTask exampleState "2024-01-01" "m1" (-1))
        "2024-01-01" "m1").customTasks = ["a"] :=
  ⟨rfl, rfl⟩

/-- C9 (amended): for every NON-NEGATIVE index, `removeCustomTask` with an
index past the end of the day's custom list does not throw and observably
changes nothing (every member's daily data on every date, and the
configuration, read back unchanged), and an in-range index removes exactly
the element at that position, preserving the order of the rest.  (A negative
index instead removes counting from the end, per JS `splice`.) -/
theorem removeCustomTask_in_and_out_of_range (st : State) (d m : String) (i : Int) :
    (((getMemberData st d m).customTasks.length : Int) ≤ i →
      (∀ d' m', getMemberData (handleRemoveCustomTask st d m i) d' m' = getMemberData st d' m') ∧
      (handleRemoveCustomTask st d m i).config = st.config) ∧
    (0 ≤ i → i < ((getMemberData st d m).customTasks.length : Int) →
      (getMemberData (handleRemoveCustomTask st d m i) d m).customTasks
        = (getMemberData st d m).customTasks.take i.toNat
          ++ (getMemberData st d m).customTasks.drop (i.toNat + 1)) := by
  constructor
  · intro hge
    have hsplice : spliceRemoveOne (getMemberData st d m).customTasks i
        = (getMemberData st d m).customTasks := by
      unfold spliceRemoveOne
      have hnn : ¬ i < 0 := by omega
      simp only [if_neg hnn]
      have hmin : min i ((getMemberData st d m).customTasks.length : Int)
          = ((getMemberData st d m).customTasks.length : Int) := by omega
      rw [hmin]
      have htn : (((getMemberData st d m).customTasks.length : Int)).toNat
          = (getMemberData st d m).customTasks.length := by omega
      rw [htn]
      rw [List.take_length, List.drop_eq_nil_of_le (by omega), List.append_nil]
    have hfun : (fun md => { md with customTasks := spliceRemoveOne md.customTasks i })
        (getMemberData st d m) = getMemberData st d m := by
      simp [hsplice]
    refine ⟨fun d' m' => ?_, rfl⟩
    by_cases hd : d' = d
    · by_cases hm : m' = m
      · rw [hd, hm]
        unfold handleRemoveCustomTask
        rw [getMemberData_update_self]
        exact hfun
      · exact getMemberData_update_other st d m d' m' _ (Or.inr hm)
    · exact getMemberData_update_other st d m d' m' _ (Or.inl hd)
  · intro h0 hlt
    unfold handleRemoveCustomTask
    rw [getMemberData_update_self]
    show spliceRemoveOne (getMemberData st d m).customTasks i = _
    unfold spliceRemoveOne
    have hnn : ¬ i < 0 := by omega
    simp only [if_neg hnn]
    have hmin : (min i ((getMemberData st d m).customTasks.length : Int)).toNat = i.toNat := by
      omega
    rw [hmin]

theorem removeCustomTask_in_and_out_of_range_witness :
    (getMemberData (handleRemoveCustomTask exampleState "2024-01-01" "m1" 5)
        "2024-01-01" "m1" = getMemberData exampleState "2024-01-01" "m1") ∧
    (handleRemoveCustomTask exampleState "2024-01-01" "m1" 5).config = exampleState.config ∧
    (getMemberData (handleRemoveCustomTask exampleState "2024-01-01" "m1" 0)
        "2024-01-01" "m1").customTasks = ["b"] :=
  ⟨((removeCustomTask_in_and_out_of_range exampleState "2024-01-01" "m1" 5).1
      (by decide)).1 "2024-01-01" "m1",
   ((removeCustomTask_in_and_out_of_range exampleState "2024-01-01" "m1" 5).1
      (by decide)).2,
   (removeCustomTask_in_and_out_of_range exampleState "2024-01-01" "m1" 0).2
      (by decide) (by decide)⟩

theorem find_map_rename (ts : List Task) (id title : String)
    (h : ∃ t ∈ ts, t.id = id) :
    ((ts.map (fun t => if t.id == id then { t with title := title } else t)).find?
        (fun t => t.id == id)).map (fun t => t.title) = some title := by
  induction ts with
  | nil => simp at h
  | cons t rest ih =>
    simp only [List.map_cons]
    by_cases hid : t.id = id
    · have hb : (t.id == id) = true := by simp [hid]
      rw [if_pos hb]
      rw [List.find?_cons_of_pos _ (by simp [hid])]
      simp
    · have h' : ∃ t' ∈ rest, t'.id = id := by
        rcases h with ⟨t', ht', hid'⟩
        rcases List.mem_cons.mp ht' with rfl | hmem
        · exact absurd hid' hid
        · exact ⟨t', hmem, hid'⟩
      have hnb : ¬ ((t.id == id) = true) := by simp [hid]
      rw [if_neg hnb]
      rw [List.find?_cons_of_neg _ (by simp [hid])]
      exact ih h'

theorem map_rename_id (ts : List Task) (id title : String)
    (h : ∀ t ∈ ts, t.id = id → t.title = title) :
    ts.map (fun t => if t.id == id then { t with title := title } else t) = ts := by
  induction ts with
  | nil => rfl
  | cons t rest ih =>
    have hrest : ∀ t' ∈ rest, t'.id = id → t'.title = title :=
      fun t' ht' => h t' (List.mem_cons_of_mem t ht')
    simp only [List.map_cons]
    by_cases hid : t.id = id
    · have htit : t.title = title := h t (List.mem_cons_self t rest) hid
      have hb : (t.id == id) = true := by simp [hid]
      have hhead : (if t.id == id then { t with title := title } else t) = t := by
        rw [if_pos hb, ← htit]
      rw [hhead, ih hrest]
    · have hnb : ¬ ((t.id == id) = true) := by simp [hid]
      have hhead : (if t.id == id then { t with title := title } else t) = t := by
        rw [if_neg hnb]
      rw [hhead, ih hrest]

/-- C5: `saveTaskEdit` performed as a pure rename (the details field is
submitted unchanged) updates the live task definition's title, stamps
today's task log `recordedTitle` with the new title while leaving today's
`completed` and `details` as they were, and leaves every other date's day
record (in particular every date strictly before today) structurally
unchanged. -/
theorem renameTask_updates_live_and_today (st : State) (today m id title : String)
    (ts : List Task) (hts : lookup st.config.tasks m = some ts)
    (hmem : ∃ t ∈ ts, t.id = id) :
    ((liveTaskDef (saveTaskEdit st today m id title (getTaskState st today m id).details)
        m id).map (fun t => t.title) = some title) ∧
    (getTaskState (saveTaskEdit st today m id title (getTaskState st today m id).details)
        today m id = { getTaskState st today m id with recordedTitle := some title }) ∧
    (∀ d, d ≠ today →
      lookup (saveTaskEdit st today m id title (getTaskState st today m id).details).data d
        = lookup st.data d) := by
  refine ⟨?_, ?_, ?_⟩
  · have hlive : liveTaskDef (saveTaskEdit st today m id title
          (getTaskState st today m id).details) m id
        = (((lookup st.config.tasks m).getD []).map
            (fun t => if t.id == id then { t with title := title } else t)).find?
            (fun t => t.id == id) := by
      simp [liveTaskDef, saveTaskEdit, updateMemberData, lookup_setKey_self]
    rw [hlive, hts, Option.getD_some]
    exact find_map_rename ts id title hmem
  · unfold saveTaskEdit
    exact getTaskState_after_write _ today m id _ _ (fun _ => rfl)
  · intro d hd
    unfold saveTaskEdit
    exact lookup_update_other_date _ today m d _ hd

theorem renameTask_updates_live_and_today_witness :
    lookup exampleState.config.tasks "m1"
        = some [{ id := "t1", title := "Read" }, { id := "t2", title := "Piano" }] ∧
    ((liveTaskDef (saveTaskEdit exampleState "2024-01-01" "m1" "t1" "Study"
        (getTaskState exampleState "2024-01-01" "m1" "t1").details) "m1" "t1").map
        (fun t => t.title) = some "Study") ∧
    (getTaskState (saveTaskEdit exampleState "2024-01-01" "m1" "t1" "Study"
        (getTaskState exampleState "2024-01-01" "m1" "t1").details) "2024-01-01" "m1" "t1"
      = { completed := false, details := "note", recordedTitle := some "Study" }) ∧
    lookup (saveTaskEdit exampleState "2024-01-01" "m1" "t1" "Study"
        (getTaskState exampleState "2024-01-01" "m1" "t1").details).data "2023-12-31"
      = lookup exampleState.data "2023-12-31" :=
  ⟨rfl,
   (renameTask_updates_live_and_today exampleState "2024-01-01" "m1" "t1" "Study" _ rfl
      ⟨{ id := "t1", title := "Read" }, by decide, rfl⟩).1,
   (renameTask_updates_live_and_today exampleState "2024-01-01" "m1" "t1" "Study" _ rfl
      ⟨{ id := "t1", title := "Read" }, by decide, rfl⟩).2.1,
   (renameTask_updates_live_and_today exampleState "2024-01-01" "m1" "t1" "Study" _ rfl
      ⟨{ id := "t1", title := "Read" }, by decide, rfl⟩).2.2 "2023-12-31" (by decide)⟩

/-- C10: the daily-log writes (toggling a task, setting details via a
title-preserving task edit, adding or removing a custom task, setting mood)
change at most the daily log data of the targeted (date, member) pair: every
other date key's day record and every other member's entry under the same
date are structurally unchanged, and the app configuration is untouched. -/
theorem writes_touch_only_target (st : State) (d m : String) :
    (∀ tid,
      (∀ d', d' ≠ d → lookup (toggleFixedTask st d m tid).data d' = lookup st.data d') ∧
      (∀ m', m' ≠ m → lookup ((lookup (toggleFixedTask st d m tid).data d).getD []) m'
          = lookup ((lookup st.data d).getD []) m') ∧
      (toggleFixedTask st d m tid).config = st.config) ∧
    (∀ text,
      (∀ d', d' ≠ d → lookup (handleAddCustomTask st d m text).data d' = lookup st.data d') ∧
      (∀ m', m' ≠ m → lookup ((lookup (handleAddCustomTask st d m text).data d).getD []) m'
          = lookup ((lookup st.data d).getD []) m') ∧
      (handleAddCustomTask st d m text).config = st.config) ∧
    (∀ i : Int,
      (∀ d', d' ≠ d → lookup (handleRemoveCustomTask st d m i).data d' = lookup st.data d') ∧
      (∀ m', m' ≠ m → lookup ((lookup (handleRemoveCustomTask st d m i).data d).getD []) m'
          = lookup ((lookup st.data d).getD []) m') ∧
      (handleRemoveCustomTask st d m i).config = st.config) ∧
    (∀ mood,
      (∀ d', d' ≠ d → lookup (handleUpdateMood st d m mood).data d' = lookup st.data d') ∧
      (∀ m', m' ≠ m → lookup ((lookup (handleUpdateMood st d m mood).data d).getD []) m'
          = lookup ((lookup st.data d).getD []) m') ∧
      (handleUpdateMood st d m mood).config = st.config) ∧
    (∀ id title details ts, lookup st.config.tasks m = some ts →
      (∀ t ∈ ts, t.id = id → t.title = title) →
      (∀ d', d' ≠ d → lookup (saveTaskEdit st d m id title details).data d' = lookup st.data d') ∧
      (∀ m', m' ≠ m → lookup ((lookup (saveTaskEdit st d m id title details).data d).getD []) m'
          = lookup ((lookup st.data d).getD []) m') ∧
      (saveTaskEdit st d m id title details).config = st.config) := by
  refine ⟨?_, ?_, ?_, ?_, ?_⟩
  · intro tid
    exact ⟨fun d' hd => lookup_update_other_date st d m d' _ hd,
           fun m' hm => lookup_updateDay_other_member st d m m' _ hm, rfl⟩
  · intro text
    by_cases htr : text.trim = ""
    · unfold handleAddCustomTask
      rw [if_pos htr]
      exact ⟨fun _ _ => rfl, fun _ _ => rfl, rfl⟩
    · unfold handleAddCustomTask
      rw [if_neg htr]
      exact ⟨fun d' hd => lookup_update_other_date st d m d' _ hd,
             fun m' hm => lookup_updateDay_other_member st d m m' _ hm, rfl⟩
  · intro i
    exact ⟨fun d' hd => lookup_update_other_date st d m d' _ hd,
           fun m' hm => lookup_updateDay_other_member st d m m' _ hm, rfl⟩
  · intro mood
    exact ⟨fun d' hd => lookup_update_other_date st d m d' _ hd,
           fun m' hm => lookup_updateDay_other_member st d m m' _ hm, rfl⟩
  · intro id title details ts hts htit
    have hkey : setKey st.config.tasks m
        (((lookup st.config.tasks m).getD []).map
          (fun t => if t.id == id then { t with title := title } else t))
        = st.config.tasks := by
      rw [hts, Option.getD_some, map_rename_id ts id title htit]
      exact setKey_eq_self _ _ _ hts
    refine ⟨fun d' hd => ?_, fun m' hm => ?_, ?_⟩
    · simp only [saveTaskEdit]
      rw [hkey]
      exact lookup_update_other_date _ d m d' _ hd
    · simp only [saveTaskEdit]
      rw [hkey]
      exact lookup_updateDay_other_member _ d m m' _ hm
    · simp only [saveTaskEdit]
      rw [hkey]
      exact updateMemberData_config _ d m _

theorem writes_touch_only_target_witness :
    lookup (toggleFixedTask exampleState "2024-01-01" "m1" "t1").data "2023-12-31"
        = lookup exampleState.data "2023-12-31" ∧
    lookup ((lookup (handleAddCustomTask exampleState "2024-01-01" "m1" "swim").data
        "2024-01-01").getD []) "m2"
        = lookup ((lookup exampleState.data "2024-01-01").getD []) "m2" ∧
    (handleUpdateMood exampleState "2024-01-01" "m1" "tired").config = exampleState.config ∧
    (saveTaskEdit exampleState "2024-01-01" "m1" "t1" "Read" "newnote").config
        = exampleState.config :=
  ⟨((writes_touch_only_target exampleState "2024-01-01" "m1").1 "t1").1
      "2023-12-31" (by decide),
   ((writes_touch_only_target exampleState "2024-01-01" "m1").2.1 "swim").2.1
      "m2" (by decide),
   ((writes_touch_only_target exampleState "2024-01-01" "m1").2.2.2.1 "tired").2.2,
   ((writes_touch_only_target exampleState "2024-01-01" "m1").2.2.2.2 "t1" "Read" "newnote"
      [{ id := "t1", title := "Read" }, { id := "t2", title := "Piano" }] rfl
      (by decide)).2.2⟩

/-! ## Age / grade derivation (src/App.tsx `calculateAgeAndGrade`) -/

/-- A calendar date as the source reads it off a JS `Date`:
`year = getFullYear()`, `month` is the 1-based human month (the source's
0-based `getMonth()` is `month - 1`), `day = getDate()`. -/
structure SDate where
  year : Int
  month : Int
  day : Int
  deriving DecidableEq

/-- `calculateAgeAndGrade` from src/App.tsx, given the parsed birth date and
today.  `Math.floor(m / 12)` is `Int.fdiv`, the JS remainder `m % 12` is
`Int.tmod`, and every `getMonth()` is `month - 1`. -/
def calculateAgeAndGrade (birth today : SDate) : String :=
  let m0 : Int := (today.month - 1) - (birth.month - 1) + 12 * (today.year - birth.year)
  let m : Int := if today.day < birth.day then m0 - 1 else m0
  let years : Int := Int.fdiv m 12
  let months : Int := Int.tmod m 12
  let ageStr : String := toString years ++ "y" ++ toString months ++ "m"
  let currentAcademicYear : Int := if today.month - 1 < 8 then today.year - 1 else today.year
  let schoolBirthYear : Int :=
    if birth.month - 1 > 8 ∨ (birth.month - 1 = 8 ∧ birth.day ≥ 2) then birth.year + 1
    else birth.year
  let gradeVal : Int := currentAcademicYear - schoolBirthYear - 5
  let gradeStr : String :=
    if gradeVal ≥ 13 then ""
    else if gradeVal ≥ 10 then "高" ++ toString (gradeVal - 9)
    else if gradeVal ≥ 7 then "國" ++ toString (gradeVal - 6)
    else if gradeVal ≥ 1 then toString gradeVal ++ "年級"
    else if gradeVal = 0 then "大班"
    else if gradeVal = -1 then "中班"
    else if gradeVal = -2 then "小班"
    else if gradeVal = -3 then "幼幼班"
    else ""
  (ageStr ++ " " ++ gradeStr).trim

/-- The age/grade derivation exactly as the specification words it (claim
C8), for comparison against `calculateAgeAndGrade`:
`months = (today.year - birth.year)*12 + (today.month - birth.month)`,
decremented when `today.day < birth.day`; `years = months div 12`,
`rem = months mod 12`; `schoolBirthYear` is the birth year plus one exactly
when the birth month/day is on or after September 2; `currentAcademicYear`
is the current year minus one exactly when the current month is before
September; `grade = currentAcademicYear - schoolBirthYear - 5`, mapped to
the stated bands. -/
def calculateAgeAndGradeSpec (birth today : SDate) : String :=
  let months : Int := (today.year - birth.year) * 12 + (today.month - birth.month)
      - (if today.day < birth.day then 1 else 0)
  let years : Int := months / 12
  let rem : Int := months % 12
  let schoolBirthYear : Int :=
    birth.year + (if birth.month > 9 ∨ (birth.month = 9 ∧ birth.day ≥ 2) then 1 else 0)
  let currentAcademicYear : Int := today.year - (if today.month < 9 then 1 else 0)
  let g : Int := currentAcademicYear - schoolBirthYear - 5
  let label : String :=
    if 13 ≤ g then ""
    else if 10 ≤ g ∧ g ≤ 12 then "高" ++ toString (g - 9)
    else if 7 ≤ g ∧ g ≤ 9 then "國" ++ toString (g - 6)
    else if 1 ≤ g ∧ g ≤ 6 then toString g ++ "年級"
    else if g = 0 then "大班"
    else if g = -1 then "中班"
    else if g = -2 then "小班"
    else if g = -3 then "幼幼班"
    else ""
  (toString years ++ "y" ++ toString rem ++ "m" ++ " " ++ label).trim

/-- C8: on every chronologically sensible input (the adjusted month count is
non-negative, i.e. the birth date is not in the future), the code's
age/grade derivation computes exactly the formulas and bands the
specification states. -/
theorem ageGrade_matches_spec (birth today : SDate)
    (h : 0 ≤ (today.year - birth.year) * 12 + (today.month - birth.month)
        - (if today.day < birth.day then 1 else 0)) :
    calculateAgeAndGrade birth today = calculateAgeAndGradeSpec birth today := by
  unfold calculateAgeAndGrade calculateAgeAndGradeSpec
  dsimp only
  have hm : (if today.day < birth.day then
        ((today.month - 1) - (birth.month - 1) + 12 * (today.year - birth.year)) - 1
      else (today.month - 1) - (birth.month - 1) + 12 * (today.year - birth.year))
      = (today.year - birth.year) * 12 + (today.month - birth.month)
        - (if today.day < birth.day then 1 else 0) := by
    split_ifs <;> ring
  rw [hm]
  set E : Int := (today.year - birth.year) * 12 + (today.month - birth.month)
      - (if today.day < birth.day then 1 else 0) with hE
  rw [Int.fdiv_eq_ediv E (by norm_num), Int.tmod_eq_emod h (by norm_num)]
  have hay : (if today.month - 1 < 8 then today.year - 1 else today.year)
      = today.year - (if today.month < 9 then 1 else 0) := by
    split_ifs <;> omega
  rw [hay]
  have hsb : (if birth.month - 1 > 8 ∨ (birth.month - 1 = 8 ∧ birth.day ≥ 2)
        then birth.year + 1 else birth.year)
      = birth.year + (if birth.month > 9 ∨ (birth.month = 9 ∧ birth.day ≥ 2) then 1 else 0) := by
    split_ifs <;> omega
  rw [hsb]
  have hlabel : ∀ g : Int,
      (if g ≥ 13 then ""
        else if g ≥ 10 then "高" ++ toString (g - 9)
        else if g ≥ 7 then "國" ++ toString (g - 6)
        else if g ≥ 1 then toString g ++ "年級"
        else if g = 0 then "大班"
        else if g = -1 then "中班"
        else if g = -2 then "小班"
        else if g = -3 then "幼幼班"
        else "")
      = (if 13 ≤ g then ""
        else if 10 ≤ g ∧ g ≤ 12 then "高" ++ toString (g - 9)
        else if 7 ≤ g ∧ g ≤ 9 then "國" ++ toString (g - 6)
        else if 1 ≤ g ∧ g ≤ 6 then toString g ++ "年級"
        else if g = 0 then "大班"
        else if g = -1 then "中班"
        else if g = -2 then "小班"
        else if g = -3 then "幼幼班"
        else "") := by
    intro g
    by_cases h13 : 13 ≤ g
    · rw [if_pos h13, if_pos h13]
    · rw [if_neg h13, if_neg h13]
      by_cases h10 : 10 ≤ g
      · rw [if_pos h10, if_pos (show 10 ≤ g ∧ g ≤ 12 from ⟨h10, by omega⟩)]
      · rw [if_neg h10, if_neg (show ¬(10 ≤ g ∧ g ≤ 12) from by omega)]
        by_cases h7 : 7 ≤ g
        · rw [if_pos h7, if_pos (show 7 ≤ g ∧ g ≤ 9 from ⟨h7, by omega⟩)]
        · rw [if_neg h7, if_neg (show ¬(7 ≤ g ∧ g ≤ 9) from by omega)]
          by_cases h1 : 1 ≤ g
          · rw [if_pos h1, if_pos (show 1 ≤ g ∧ g ≤ 6 from ⟨h1, by omega⟩)]
          · rw [if_neg h1, if_neg (show ¬(1 ≤ g ∧ g ≤ 6) from by omega)]
  rw [hlabel]

theorem ageGrade_matches_spec_witness :
    (0 ≤ ((⟨2024, 10, 1⟩ : SDate).year - (⟨2015, 5, 10⟩ : SDate).year) * 12
        + ((⟨2024, 10, 1⟩ : SDate).month - (⟨2015, 5, 10⟩ : SDate).month)
        - (if (⟨2024, 10, 1⟩ : SDate).day < (⟨2015, 5, 10⟩ : SDate).day then 1 else 0)) ∧
    calculateAgeAndGrade ⟨2015, 5, 10⟩ ⟨2024, 10, 1⟩
      = calculateAgeAndGradeSpec ⟨2015, 5, 10⟩ ⟨2024, 10, 1⟩ :=
  ⟨by decide, ageGrade_matches_spec ⟨2015, 5, 10⟩ ⟨2024, 10, 1⟩ (by decide)⟩

/-! ## Import / export (src/App.tsx `handleExport` / `handleImport`)

The serialized blob is modelled at the level of JSON values: `JSON.stringify`
followed by `JSON.parse` is the identity on this tree, so `handleExport`
produces the `Json` tree of `{ data, config }` and `handleImport` consumes an
`Option Json` (`none` when `JSON.parse` throws).  `handleImport` stores the
parsed fields without validating their shape, so it is modelled on raw
`Json` state; the `decode*` functions express "is App-Data/App-Config
shaped" and read such a value back into the typed model. -/

inductive Json where
  | jbool (b : Bool)
  | jstr (s : String)
  | jarr (elems : List Json)
  | jobj (fields : List (String × Json))

/-- JS property read `parsed.key` on a parsed JSON value. -/
def getField : Json → String → Option Json
  | .jobj fields, key => lookup fields key
  | _, _ => none

def asStr : Json → Option String
  | .jstr s => some s
  | _ => none

def asBool : Json → Option Bool
  | .jbool b => some b
  | _ => none

/-- JS truthiness of a parsed JSON value (`false`, `""` are falsy; arrays and
objects are always truthy), as tested by `if (parsed.data && parsed.config)`. -/
def jsTruthy : Json → Bool
  | .jbool b => b
  | .jstr s => !(s == "")
  | .jarr _ => true
  | .jobj _ => true

/-- `JSON.stringify` omits fields holding `undefined`: an optional string
field contributes either one field or nothing. -/
def optField (key : String) : Option String → List (String × Json)
  | some s => [(key, .jstr s)]
  | none => []

def encodeTaskLog (l : TaskLog) : Json :=
  .jobj ([("completed", .jbool l.completed), ("details", .jstr l.details)]
    ++ optField "recordedTitle" l.recordedTitle)

def encodeFixedEntry : FixedEntry → Json
  | .legacy b => .jbool b
  | .log l => encodeTaskLog l

def encodeRecord {α : Type} (enc : α → Json) (m : List (String × α)) : Json :=
  .jobj (m.map (fun kv => (kv.1, enc kv.2)))

def encodeDailyLogData (md : DailyLogData) : Json :=
  .jobj [("fixedTasks", encodeRecord encodeFixedEntry md.fixedTasks),
         ("customTasks", .jarr (md.customTasks.map (fun s => .jstr s))),
         ("mood", .jstr md.mood)]

def encodeAppData (d : AppData) : Json :=
  encodeRecord (encodeRecord encodeDailyLogData) d

def encodeTask (t : Task) : Json :=
  .jobj [("id", .jstr t.id), ("title", .jstr t.title)]

def encodeMemberConfig (m : MemberConfig) : Json :=
  .jobj ([("id", .jstr m.id), ("name", .jstr m.name)]
    ++ optField "birthDate" m.birthDate ++ optField "subtitle" m.subtitle
    ++ [("visible", .jbool m.visible)]
    ++ optField "themeColor" m.themeColor ++ optField "backgroundImage" m.backgroundImage
    ++ optField "textColor" m.textColor)

def encodeAppConfig (c : AppConfig) : Json :=
  .jobj ([("tasks", encodeRecord (fun tl => .jarr (tl.map encodeTask)) c.tasks),
          ("members", encodeRecord encodeMemberConfig c.members)]
    ++ optField "appTitle" c.appTitle
    ++ optField "globalBackgroundColor" c.globalBackgroundColor
    ++ optField "globalBackgroundImage" c.globalBackgroundImage)

/-- `handleExport` from src/App.tsx: `JSON.stringify({ data, config })`, as a
JSON tree. -/
def handleExport (st : State) : Json :=
  .jobj [("data", encodeAppData st.data), ("config", encodeAppConfig st.config)]

/-- The `importStatus` React state values of src/App.tsx. -/
inductive ImportStatus where
  | idle
  | success
  | error
  deriving DecidableEq

/-- `handleImport` from src/App.tsx, on the raw in-memory `(data, config)`
pair: `JSON.parse` failure (`text = none`) and a missing or falsy
`parsed.data`/`parsed.config` field set the error status and leave the state
untouched; otherwise both structures are wholesale replaced by the parsed
field values, unvalidated. -/
def handleImportRaw (st : Json × Json) (text : Option Json) : (Json × Json) × ImportStatus :=
  match text with
  | none => (st, .error)
  | some parsed =>
    match getField parsed "data", getField parsed "config" with
    | some dj, some cj =>
      if jsTruthy dj && jsTruthy cj then ((dj, cj), .success) else (st, .error)
    | _, _ => (st, .error)

/-! ### Decoders: shape checks reading a JSON value back into the model -/

def decodeEntries {α : Type} (dec : Json → Option α) :
    List (String × Json) → Option (List (String × α))
  | [] => some []
  | (k, j) :: rest =>
    match dec j, decodeEntries dec rest with
    | some v, some vs => some ((k, v) :: vs)
    | _, _ => none

def decodeRecord {α : Type} (dec : Json → Option α) : Json → Option (List (String × α))
  | .jobj fields => decodeEntries dec fields
  | _ => none

def decodeList {α : Type} (dec : Json → Option α) : List Json → Option (List α)
  | [] => some []
  | j :: rest =>
    match dec j, decodeList dec rest with
    | some v, some vs => some (v :: vs)
    | _, _ => none

def decodeArr {α : Type} (dec : Json → Option α) : Json → Option (List α)
  | .jarr elems => decodeList dec elems
  | _ => none

def decodeTaskLog (j : Json) : Option TaskLog :=
  match (getField j "completed").bind asBool, (getField j "details").bind asStr with
  | some c, some d =>
    some { completed := c, details := d, recordedTitle := (getField j "recordedTitle").bind asStr }
  | _, _ => none

def decodeFixedEntry (j : Json) : Option FixedEntry :=
  match j with
  | .jbool b => some (.legacy b)
  | _ => (decodeTaskLog j).map FixedEntry.log

def decodeDailyLogData (j : Json) : Option DailyLogData :=
  match (getField j "fixedTasks").bind (decodeRecord decodeFixedEntry),
        (getField j "customTasks").bind (decodeArr asStr),
        (getField j "mood").bind asStr with
  | some ft, some ct, some md => some { fixedTasks := ft, customTasks := ct, mood := md }
  | _, _, _ => none

def decodeAppData (j : Json) : Option AppData :=
  decodeRecord (decodeRecord decodeDailyLogData) j

def decodeTask (j : Json) : Option Task :=
  match (getField j "id").bind asStr, (getField j "title").bind asStr with
  | some i, some t => some { id := i, title := t }
  | _, _ => none

def decodeMemberConfig (j : Json) : Option MemberConfig :=
  match (getField j "id").bind asStr, (getField j "name").bind asStr,
        (getField j "visible").bind asBool with
  | some i, some n, some v =>
    some { id := i, name := n, birthDate := (getField j "birthDate").bind asStr
           subtitle := (getField j "subtitle").bind asStr, visible := v
           themeColor := (getField j "themeColor").bind asStr
           backgroundImage := (getField j "backgroundImage").bind asStr
           textColor := (getField j "textColor").bind asStr }
  | _, _, _ => none

def decodeAppConfig (j : Json) : Option AppConfig :=
  match (getField j "tasks").bind (decodeRecord (decodeArr decodeTask)),
        (getField j "members").bind (decodeRecord decodeMemberConfig) with
  | some ts, some ms =>
    some { tasks := ts, members := ms, appTitle := (getField j "appTitle").bind asStr
           globalBackgroundColor := (getField j "globalBackgroundColor").bind asStr
           globalBackgroundImage := (getField j "globalBackgroundImage").bind asStr }
  | _, _ => none

/-! ### Encode/decode round trips -/

theorem decodeTaskLog_encode (l : TaskLog) : decodeTaskLog (encodeTaskLog l) = some l := by
  rcases l with ⟨c, d, r⟩
  cases r <;> rfl

theorem decodeFixedEntry_encode (e : FixedEntry) :
    decodeFixedEntry (encodeFixedEntry e) = some e := by
  cases e with
  | legacy b => rfl
  | log l =>
    show (decodeTaskLog (encodeTaskLog l)).map FixedEntry.log = some (.log l)
    rw [decodeTaskLog_encode]
    rfl

theorem decodeList_encode {α : Type} (dec : Json → Option α) (enc : α → Json)
    (h : ∀ a, dec (enc a) = some a) (l : List α) :
    decodeList dec (l.map enc) = some l := by
  induction l with
  | nil => rfl
  | cons x rest ih => simp [decodeList, h, ih]

theorem decodeRecord_encode {α : Type} (dec : Json → Option α) (enc : α → Json)
    (h : ∀ a, dec (enc a) = some a) (m : List (String × α)) :
    decodeRecord dec (encodeRecord enc m) = some m := by
  show decodeEntries dec (m.map fun kv => (kv.1, enc kv.2)) = some m
  induction m with
  | nil => rfl
  | cons kv rest ih => simp [decodeEntries, h, ih]

theorem decodeDailyLogData_encode (md : DailyLogData) :
    decodeDailyLogData (encodeDailyLogData md) = some md := by
  rcases md with ⟨ft, ct, mood⟩
  have hct : decodeArr asStr (.jarr (ct.map (fun s => .jstr s))) = some ct :=
    decodeList_encode asStr (fun s => .jstr s) (fun _ => rfl) ct
  have hft := decodeRecord_encode decodeFixedEntry encodeFixedEntry decodeFixedEntry_encode ft
  simp [decodeDailyLogData, encodeDailyLogData, getField, lookup, asStr, hct, hft]

theorem decodeAppData_encode (d : AppData) : decodeAppData (encodeAppData d) = some d :=
  decodeRecord_encode _ _
    (decodeRecord_encode _ _ decodeDailyLogData_encode) d

theorem decodeTask_encode (t : Task) : decodeTask (encodeTask t) = some t := rfl

theorem decodeMemberConfig_encode (m : MemberConfig) :
    decodeMemberConfig (encodeMemberConfig m) = some m := by
  rcases m with ⟨i, n, bd, sub, vis, tc, bg, txt⟩
  cases bd <;> cases sub <;> cases tc <;> cases bg <;> cases txt <;> rfl

theorem decodeAppConfig_encode (c : AppConfig) :
    decodeAppConfig (encodeAppConfig c) = some c := by
  have htasks : ∀ tl : List Task, decodeArr decodeTask (.jarr (tl.map encodeTask)) = some tl :=
    fun tl => decodeList_encode decodeTask encodeTask decodeTask_encode tl
  have hms := decodeRecord_encode decodeMemberConfig encodeMemberConfig
    decodeMemberConfig_encode
  rcases c with ⟨ts, ms, apt, gbc, gbi⟩
  have hts := decodeRecord_encode (decodeArr decodeTask)
    (fun tl => Json.jarr (tl.map encodeTask)) htasks ts
  cases apt <;> cases gbc <;> cases gbi <;>
    simp [encodeAppConfig, optField, decodeAppConfig, getField, lookup, asStr, hts, hms]

/-- C7: exporting the in-memory state and immediately importing the produced
blob succeeds, and the imported raw values decode back to App Data and App
Configuration structurally identical to the exported ones. -/
theorem export_import_roundtrip (st : State) (raw : Json × Json) :
    handleImportRaw raw (some (handleExport st))
        = ((encodeAppData st.data, encodeAppConfig st.config), .success) ∧
    decodeAppData (encodeAppData st.data) = some st.data ∧
    decodeAppConfig (encodeAppConfig st.config) = some st.config := by
  refine ⟨?_, decodeAppData_encode st.data, decodeAppConfig_encode st.config⟩
  simp [handleImportRaw, handleExport, getField, lookup, jsTruthy,
    encodeAppData, encodeAppConfig, encodeRecord]

/-- An empty but well-shaped App Configuration, used as import-blob
material. -/
def emptyConfig : AppConfig :=
  { tasks := [], members := [], appTitle := none
    globalBackgroundColor := none, globalBackgroundImage := none }

/-- C6 counterexample: the import text `{"data": "x", "config": {...}}`
parses, its `data` field is NOT App-Data-shaped (the decoder rejects the
string "x") while its `config` field is App-Configuration-shaped, yet
the import succeeds and replaces the in-memory data with the bogus value: the
code only tests JS truthiness of the two fields, never their shape, so the
claimed "error and no change" does not happen. -/
theorem import_shape_counterexample :
    decodeAppData (.jstr "x") = none ∧
    decodeAppConfig (encodeAppConfig emptyConfig) = some emptyConfig ∧
    handleImportRaw (.jobj [], .jobj [])
        (some (.jobj [("data", .jstr "x"), ("config", encodeAppConfig emptyConfig)]))
      = ((.jstr "x", encodeAppConfig emptyConfig), .success) :=
  ⟨rfl, rfl, rfl⟩

/-- C6 (amended): `handleImport` reports an error and leaves both in-memory
structures exactly unchanged when the text is not valid JSON, when the
parsed value has no top-level `data` or `config` field, or when a present
field is a falsy JS value; when both fields are present and truthy it
wholesale replaces both structures with the parsed field values as they are,
with no further shape validation. -/
theorem import_checks_presence_only (st : Json × Json) :
    handleImportRaw st none = (st, .error) ∧
    (∀ parsed, getField parsed "data" = none →
      handleImportRaw st (some parsed) = (st, .error)) ∧
    (∀ parsed, getField parsed "config" = none →
      handleImportRaw st (some parsed) = (st, .error)) ∧
    (∀ parsed dj cj, getField parsed "data" = some dj → getField parsed "config" = some cj →
      (jsTruthy dj = false ∨ jsTruthy cj = false) →
      handleImportRaw st (some parsed) = (st, .error)) ∧
    (∀ parsed dj cj, getField parsed "data" = some dj → getField parsed "config" = some cj →
      jsTruthy dj = true → jsTruthy cj = true →
      handleImportRaw st (some parsed) = ((dj, cj), .success)) := by
  refine ⟨rfl, ?_, ?_, ?_, ?_⟩
  · intro parsed h
    cases hc : getField parsed "config" <;> simp [handleImportRaw, h, hc]
  · intro parsed h
    cases hd : getField parsed "data" <;> simp [handleImportRaw, h, hd]
  · intro parsed dj cj hd hc htruthy
    simp only [handleImportRaw]
    rw [hd, hc]
    rcases htruthy with ht | ht <;> simp [ht]
  · intro parsed dj cj hd hc ht1 ht2
    simp only [handleImportRaw]
    rw [hd, hc]
    simp [ht1, ht2]

theorem import_checks_presence_only_witness :
    handleImportRaw (.jstr "old", .jstr "oldcfg") (some (.jobj [("data", .jstr "x")]))
        = ((.jstr "old", .jstr "oldcfg"), .error) ∧
    handleImportRaw (.jstr "old", .jstr "oldcfg")
        (some (.jobj [("data", .jbool false), ("config", .jobj [])]))
        = ((.jstr "old", .jstr "oldcfg"), .error) ∧
    handleImportRaw (.jstr "old", .jstr "oldcfg")
        (some (.jobj [("data", .jobj [("2024-01-01", .jobj [])]), ("config", .jobj [])]))
        = ((.jobj [("2024-01-01", .jobj [])], .jobj []), .success) :=
  ⟨(import_checks_presence_only (.jstr "old", .jstr "oldcfg")).2.2.1
      (.jobj [("data", .jstr "x")]) rfl,
   (import_checks_presence_only (.jstr "old", .jstr "oldcfg")).2.2.2.1
      (.jobj [("data", .jbool false), ("config", .jobj [])]) (.jbool false) (.jobj [])
      rfl rfl (Or.inl rfl),
   (import_checks_presence_only (.jstr "old", .jstr "oldcfg")).2.2.2.2
      (.jobj [("data", .jobj [("2024-01-01", .jobj [])]), ("config", .jobj [])])
      (.jobj [("2024-01-01", .jobj [])]) (.jobj []) rfl rfl rfl rfl⟩

end FamilyLog
